import Mathlib

/-!
# QQnxRasterBackingStore: scroll batching and flush coordination

A shallow embedding of `src/plugins/platforms/qnx/qqnxrasterbackingstore.cpp`.

* The object state is the pair `m_scrollOpList`, `m_hasUnflushedPaintOperations`
  together with the non-owning pointer `m_platformWindow`.
* Calls made on `QQnxWindow` objects (`scroll`, `post`, `adjustBufferSize`,
  `blitFrom`) are external: every method returns the list of calls it issued, in
  program order, next to its result; for `scroll`, which issues none, the list is
  `scrollCalls`.
* `int` deltas and coordinates are taken as exact integers (signed overflow is
  undefined behaviour in C++).
* `Q_ASSERT` is the aborting assertion of a build with assertions enabled; an abort is
  the `Except.error` result of `flush`.
-/

namespace QQnx

/-! ## Collaborator types -/

/-- Modelled from the spec: `QPoint` (declared in QtCore, not part of the translated
file) is a pair of integer coordinates. -/
abbrev QPoint := Int × Int

/-- Modelled from the spec: `QRegion` (declared in QtGui, not part of the translated
file) is a finite set of integer pixels; `operator==` is equality of the pixel sets. -/
abbrev QRegion := Finset (Int × Int)

/-- Modelled from the spec: `QRegion::translated(dx, dy)`, the region shifted by
`(dx, dy)`. -/
def QRegion.translated (r : QRegion) (dx dy : Int) : QRegion :=
  r.image (fun p => (p.1 + dx, p.2 + dy))

/-- Modelled from the spec: `QRegion::intersected`, the common pixels. -/
def QRegion.intersected (r other : QRegion) : QRegion := r ∩ other

/-- Modelled from the spec: `QRegion::operator+=`, the union of pixels. -/
def QRegion.united (r other : QRegion) : QRegion := r ∪ other

/-- Modelled from the spec: `QRegion::intersects`, true when a pixel is shared. -/
def QRegion.intersects (r other : QRegion) : Bool := decide ((r ∩ other).Nonempty)

/-- Modelled from the spec: the region of one rectangle written `[x1,y1,x2,y2]`,
the pixels `(x, y)` with `x1 ≤ x < x2` and `y1 ≤ y < y2`. -/
def QRegion.rect (x1 y1 x2 y2 : Int) : QRegion :=
  Finset.Ico x1 x2 ×ˢ Finset.Ico y1 y2

/-- Modelled from the spec: `QSize` (declared in QtCore), a width and a height. -/
abbrev QSize := Int × Int

/-- A `QQnxWindow *` that is not null: the identity of a platform window. -/
abbrev QQnxWindow := Nat

/-- Modelled from the spec: a `QWindow` object as far as this file uses it, its
`handle()` is the platform window or null. -/
structure QWindow where
  handle : Option QQnxWindow
deriving DecidableEq, Repr

/-- The calls this file makes on `QQnxWindow` objects; the first field is the
receiver. -/
inductive WindowCall where
  | scroll (w : QQnxWindow) (srcArea : QRegion) (dx dy : Int)
  | post (w : QQnxWindow) (region : QRegion)
  | adjustBufferSize (w : QQnxWindow)
  | blitFrom (w : QQnxWindow) (sourceWindow : QQnxWindow) (offset : QPoint)
      (region : QRegion)

instance : DecidableEq WindowCall
  | .scroll w a x y, .scroll w2 a2 x2 y2 =>
    decidable_of_iff (w = w2 ∧ a = a2 ∧ x = x2 ∧ y = y2) (by simp)
  | .post w r, .post w2 r2 => decidable_of_iff (w = w2 ∧ r = r2) (by simp)
  | .adjustBufferSize w, .adjustBufferSize w2 => decidable_of_iff (w = w2) (by simp)
  | .blitFrom w v o r, .blitFrom w2 v2 o2 r2 =>
    decidable_of_iff (w = w2 ∧ v = v2 ∧ o = o2 ∧ r = r2) (by simp)
  | .scroll .., .post .. => isFalse (by simp)
  | .scroll .., .adjustBufferSize .. => isFalse (by simp)
  | .scroll .., .blitFrom .. => isFalse (by simp)
  | .post .., .scroll .. => isFalse (by simp)
  | .post .., .adjustBufferSize .. => isFalse (by simp)
  | .post .., .blitFrom .. => isFalse (by simp)
  | .adjustBufferSize .., .scroll .. => isFalse (by simp)
  | .adjustBufferSize .., .post .. => isFalse (by simp)
  | .adjustBufferSize .., .blitFrom .. => isFalse (by simp)
  | .blitFrom .., .scroll .. => isFalse (by simp)
  | .blitFrom .., .post .. => isFalse (by simp)
  | .blitFrom .., .adjustBufferSize .. => isFalse (by simp)

/-- The receiver of a call. -/
def WindowCall.receiver : WindowCall → QQnxWindow
  | .scroll w _ _ _ => w
  | .post w _ => w
  | .adjustBufferSize w => w
  | .blitFrom w _ _ _ => w

/-! ## Object state -/

/-- The `ScrollOp` record of `m_scrollOpList`. -/
structure ScrollOp where
  totalArea : QRegion
  dx : Int
  dy : Int

instance : DecidableEq ScrollOp
  | ⟨a, x, y⟩, ⟨a2, x2, y2⟩ => decidable_of_iff (a = a2 ∧ x = x2 ∧ y = y2) (by simp)

/-- The data members of `QQnxRasterBackingStore`. -/
structure QQnxRasterBackingStore where
  m_platformWindow : QQnxWindow
  m_scrollOpList : List ScrollOp
  m_hasUnflushedPaintOperations : Bool

instance : DecidableEq QQnxRasterBackingStore
  | ⟨w, l, f⟩, ⟨w2, l2, f2⟩ => decidable_of_iff (w = w2 ∧ l = l2 ∧ f = f2) (by simp)

/-- The failed `Q_ASSERT(!m_hasUnflushedPaintOperations)` of `flush`. -/
inductive Fatal where
  | assertNoUnflushedPaintOperations
deriving DecidableEq, Repr

instance : DecidableEq (Except Fatal QQnxRasterBackingStore)
  | .ok a, .ok b => decidable_of_iff (a = b) (by simp)
  | .error a, .error b => decidable_of_iff (a = b) (by simp)
  | .ok _, .error _ => isFalse (by simp)
  | .error _, .ok _ => isFalse (by simp)

/-- The constructor: no pending scroll, flag false, `m_platformWindow` set to the
handle of the window, taken to be non-null (every method dereferences it). -/
def QQnxRasterBackingStore.init (platformWindow : QQnxWindow) : QQnxRasterBackingStore :=
  { m_platformWindow := platformWindow
    m_scrollOpList := []
    m_hasUnflushedPaintOperations := false }

/-! ## `scroll` -/

/-- The first two statements of `scroll`: `totalArea = area.translated(dx, dy);
totalArea += area`. -/
def scrollTotalArea (area : QRegion) (dx dy : Int) : QRegion :=
  (area.translated dx dy).united area

/-- The loop of `scroll`, `for (int i = size - 1; i >= 0; i--)`, entered with
`n = i + 1`. `some (b, ops)` is a `return b` inside the loop with the list as it is
then; `none` is the loop running to its end. -/
def scrollLoop (totalArea : QRegion) (dx dy : Int) (ops : List ScrollOp) :
    Nat → Option (Bool × List ScrollOp)
  | 0 => none
  | i + 1 =>
    match ops[i]? with
    | none => scrollLoop totalArea dx dy ops i
    | some op =>
      if op.totalArea = totalArea then
        some (true, ops.set i { op with dx := op.dx + dx, dy := op.dy + dy })
      else if op.totalArea.intersects totalArea then
        some (false, ops)
      else
        scrollLoop totalArea dx dy ops i

/-- The method `scroll(area, dx, dy)`: the returned `bool` and the state after. -/
def QQnxRasterBackingStore.scroll (s : QQnxRasterBackingStore) (area : QRegion)
    (dx dy : Int) : Bool × QQnxRasterBackingStore :=
  let totalArea := scrollTotalArea area dx dy
  let s1 := { s with m_hasUnflushedPaintOperations := true }
  match scrollLoop totalArea dx dy s1.m_scrollOpList s1.m_scrollOpList.length with
  | some (b, ops) => (b, { s1 with m_scrollOpList := ops })
  | none =>
    (true, { s1 with m_scrollOpList := s1.m_scrollOpList ++ [ScrollOp.mk totalArea dx dy] })

/-- The calls `scroll` issues on windows, in program order: none. Its body (the two
statements computing `totalArea`, the assignment of the flag, the loop over
`m_scrollOpList` and the append) calls no method of `m_platformWindow` or of any other
window. -/
def QQnxRasterBackingStore.scrollCalls (_s : QQnxRasterBackingStore) (_area : QRegion)
    (_dx _dy : Int) : List WindowCall :=
  []

/-! ## `flush` -/

/-- The region `srcArea` computed in the loop of `flush`. -/
def ScrollOp.srcArea (op : ScrollOp) : QRegion :=
  op.totalArea.intersected (op.totalArea.translated (-op.dx) (-op.dy))

/-- The loop of `flush`, `for (int i = size - 1; i >= 0; i--)`, entered with
`n = i + 1`: the calls it issues on `m_platformWindow`. -/
def flushLoop (platformWindow : QQnxWindow) (ops : List ScrollOp) : Nat → List WindowCall
  | 0 => []
  | i + 1 =>
    match ops[i]? with
    | none => flushLoop platformWindow ops i
    | some op =>
      WindowCall.scroll platformWindow op.srcArea op.dx op.dy :: flushLoop platformWindow ops i

/-- The method `flush(window, region, offset)`: the calls issued on windows, and either
the state after or the abort of the assertion. -/
def QQnxRasterBackingStore.flush (s : QQnxRasterBackingStore) (window : Option QWindow)
    (region : QRegion) (offset : QPoint) :
    List WindowCall × Except Fatal QQnxRasterBackingStore :=
  let targetWindow : Option QQnxWindow :=
    match window with
    | some w => w.handle
    | none => none
  if targetWindow = none ∨ targetWindow = some s.m_platformWindow then
    (flushLoop s.m_platformWindow s.m_scrollOpList s.m_scrollOpList.length
        ++ [WindowCall.post s.m_platformWindow region],
      .ok { s with m_scrollOpList := [], m_hasUnflushedPaintOperations := false })
  else
    match targetWindow with
    | some t =>
      if s.m_hasUnflushedPaintOperations then
        ([], .error Fatal.assertNoUnflushedPaintOperations)
      else
        ([WindowCall.adjustBufferSize t,
          WindowCall.blitFrom t s.m_platformWindow offset region,
          WindowCall.post t region],
          .ok { s with m_hasUnflushedPaintOperations := false })
    | none =>
      -- qWarning("flush() called without a valid window!")
      ([], .ok { s with m_hasUnflushedPaintOperations := false })

/-! ## `resize`, `beginPaint`, `endPaint` -/

/-- The method `resize(size, staticContents)`: both arguments unused, nothing done. -/
def QQnxRasterBackingStore.resize (s : QQnxRasterBackingStore) (_size : QSize)
    (_staticContents : QRegion) : List WindowCall × QQnxRasterBackingStore :=
  ([], s)

/-- The method `beginPaint(region)`: sets the flag and calls `adjustBufferSize` on
`m_platformWindow`. -/
def QQnxRasterBackingStore.beginPaint (s : QQnxRasterBackingStore) (_region : QRegion) :
    List WindowCall × QQnxRasterBackingStore :=
  ([WindowCall.adjustBufferSize s.m_platformWindow],
    { s with m_hasUnflushedPaintOperations := true })

/-- The method `endPaint(region)`: the argument is unused, nothing done. -/
def QQnxRasterBackingStore.endPaint (s : QQnxRasterBackingStore) (_region : QRegion) :
    List WindowCall × QQnxRasterBackingStore :=
  ([], s)

/-! ## Sequences of calls -/

/-- A run of `scroll` calls, one per request `(area, dx, dy)`, in order: the returned
values and the state after the last call. -/
def QQnxRasterBackingStore.scrollAll (s : QQnxRasterBackingStore) :
    List (QRegion × Int × Int) → List Bool × QQnxRasterBackingStore
  | [] => ([], s)
  | (area, dx, dy) :: rest =>
    let r := s.scroll area dx dy
    let rr := QQnxRasterBackingStore.scrollAll r.2 rest
    (r.1 :: rr.1, rr.2)

/-- A run of `resize` calls, one per pair `(size, staticContents)`, in order: all the
calls issued on windows and the state after the last call. -/
def QQnxRasterBackingStore.resizeAll (s : QQnxRasterBackingStore) :
    List (QSize × QRegion) → List WindowCall × QQnxRasterBackingStore
  | [] => ([], s)
  | (size, staticContents) :: rest =>
    let r := s.resize size staticContents
    let rr := QQnxRasterBackingStore.resizeAll r.2 rest
    (r.1 ++ rr.1, rr.2)

/-- The states the public methods can produce from a freshly constructed object; a
`flush` that aborts produces none. -/
inductive Reachable : QQnxRasterBackingStore → Prop
  | init (platformWindow : QQnxWindow) :
      Reachable (QQnxRasterBackingStore.init platformWindow)
  | scroll {s : QQnxRasterBackingStore} (area : QRegion) (dx dy : Int) :
      Reachable s → Reachable (s.scroll area dx dy).2
  | beginPaint {s : QQnxRasterBackingStore} (region : QRegion) :
      Reachable s → Reachable (s.beginPaint region).2
  | endPaint {s : QQnxRasterBackingStore} (region : QRegion) :
      Reachable s → Reachable (s.endPaint region).2
  | resize {s : QQnxRasterBackingStore} (size : QSize) (staticContents : QRegion) :
      Reachable s → Reachable (s.resize size staticContents).2
  | flush {s t : QQnxRasterBackingStore} (window : Option QWindow) (region : QRegion)
      (offset : QPoint) :
      Reachable s → (s.flush window region offset).2 = .ok t → Reachable t

/-- No two entries of the list have equal or intersecting `totalArea`. -/
def LedgerSeparated (ops : List ScrollOp) : Prop :=
  (ops.map ScrollOp.totalArea).Pairwise
    (fun a b => a ≠ b ∧ QRegion.intersects a b = false)

/-! ## Pixel model of a window buffer -/

/-- Modelled from the spec: the pixel buffer of a window, a map from integer points to
pixels. -/
abbrev Buffer (α : Type) := Int × Int → α

/-- Modelled from the spec: the effect of `QQnxWindow::scroll(srcArea, dx, dy)` (defined
in qqnxwindow.cpp, not part of the translated file) on the buffer: every point
`p + (dx, dy)` with `p` in `srcArea` receives the old pixel at `p`, every other point
keeps its pixel. -/
def windowScroll {α : Type} (buf : Buffer α) (srcArea : QRegion) (dx dy : Int) : Buffer α :=
  fun q => if (q.1 - dx, q.2 - dy) ∈ srcArea then buf (q.1 - dx, q.2 - dy) else buf q

/-- Modelled from the spec: the buffer of window `w` after one call. A scroll on `w` acts
as `windowScroll`, a post presents the pixels and leaves them, a call on another window
leaves the buffer of `w`; `adjustBufferSize` and `blitFrom` on `w` itself are given no
pixel model (`none`). -/
def WindowCall.applyTo {α : Type} (w : QQnxWindow) (buf : Buffer α) :
    WindowCall → Option (Buffer α)
  | .scroll w2 srcArea dx dy => some (if w2 = w then windowScroll buf srcArea dx dy else buf)
  | .post _ _ => some buf
  | .adjustBufferSize w2 => if w2 = w then none else some buf
  | .blitFrom w2 _ _ _ => if w2 = w then none else some buf

/-- The buffer of window `w` after a list of calls, in order. -/
def bufferAfter {α : Type} (w : QQnxWindow) : List WindowCall → Buffer α → Option (Buffer α)
  | [], buf => some buf
  | c :: rest, buf => (c.applyTo w buf).bind (bufferAfter w rest)

/-- The shifts of the given entries applied to a buffer one after the other, in list
order: each entry scrolls its `srcArea` by its `(dx, dy)`. -/
def applyShifts {α : Type} (es : List ScrollOp) (buf : Buffer α) : Buffer α :=
  es.foldl (fun b e => windowScroll b e.srcArea e.dx e.dy) buf

/-! ## Regions -/

theorem QRegion.mem_translated (r : QRegion) (dx dy : Int) (q : Int × Int) :
    q ∈ r.translated dx dy ↔ (q.1 - dx, q.2 - dy) ∈ r := by
  unfold QRegion.translated
  constructor
  · intro h
    obtain ⟨p, hp, rfl⟩ := Finset.mem_image.mp h
    simpa using hp
  · intro h
    refine Finset.mem_image.mpr ⟨_, h, ?_⟩
    simp

theorem QRegion.intersects_iff (a b : QRegion) :
    a.intersects b = true ↔ ∃ p, p ∈ a ∧ p ∈ b := by
  simp [QRegion.intersects, Finset.Nonempty]

theorem QRegion.intersects_eq_false_iff (a b : QRegion) :
    a.intersects b = false ↔ ∀ p, p ∈ a → p ∉ b := by
  rw [← Bool.not_eq_true, QRegion.intersects_iff]
  simp

theorem QRegion.intersects_comm (a b : QRegion) : a.intersects b = b.intersects a := by
  simp [QRegion.intersects, Finset.inter_comm]

theorem QRegion.translated_rect (x1 y1 x2 y2 dx dy : Int) :
    (QRegion.rect x1 y1 x2 y2).translated dx dy
      = QRegion.rect (x1 + dx) (y1 + dy) (x2 + dx) (y2 + dy) := by
  ext q
  rw [QRegion.mem_translated]
  simp only [QRegion.rect, Finset.mem_product, Finset.mem_Ico]
  constructor <;> intro h <;> omega

/-! ## The loop of `scroll` -/

theorem scrollLoop_append (totalArea : QRegion) (dx dy : Int) (l r : List ScrollOp) :
    ∀ n, n ≤ l.length →
      scrollLoop totalArea dx dy (l ++ r) n
        = (scrollLoop totalArea dx dy l n).map (fun p => (p.1, p.2 ++ r)) := by
  intro n
  induction n with
  | zero => intro _; simp [scrollLoop]
  | succ i ih =>
    intro h
    have hi : i < l.length := h
    have hget : (l ++ r)[i]? = l[i]? := List.getElem?_append_left hi
    have hsome : l[i]? = some l[i] := List.getElem?_eq_getElem hi
    simp only [scrollLoop, hget, hsome]
    by_cases h1 : l[i].totalArea = totalArea
    · simp [h1, List.set_append_left _ _ hi]
    · by_cases h2 : l[i].totalArea.intersects totalArea = true
      · simp [h1, h2]
      · simp [h1, h2, ih (Nat.le_of_lt hi)]

theorem scrollLoop_concat (totalArea : QRegion) (dx dy : Int) (l : List ScrollOp)
    (a : ScrollOp) :
    scrollLoop totalArea dx dy (l ++ [a]) (l ++ [a]).length
      = if a.totalArea = totalArea then
          some (true, l ++ [{ a with dx := a.dx + dx, dy := a.dy + dy }])
        else if a.totalArea.intersects totalArea then some (false, l ++ [a])
        else (scrollLoop totalArea dx dy l l.length).map (fun p => (p.1, p.2 ++ [a])) := by
  have hlen : (l ++ [a]).length = l.length + 1 := by simp
  rw [hlen]
  simp only [scrollLoop, List.getElem?_concat_length]
  by_cases h1 : a.totalArea = totalArea
  · simp [h1]
  · by_cases h2 : a.totalArea.intersects totalArea = true
    · simp [h1, h2]
    · simp [h1, h2, scrollLoop_append totalArea dx dy l [a] l.length (Nat.le_refl _)]

/-- The loop runs to its end exactly when no entry equals or intersects `totalArea`. -/
theorem scrollLoop_eq_none_iff (totalArea : QRegion) (dx dy : Int) (ops : List ScrollOp) :
    scrollLoop totalArea dx dy ops ops.length = none
      ↔ ∀ op ∈ ops, op.totalArea ≠ totalArea ∧ op.totalArea.intersects totalArea = false := by
  induction ops using List.reverseRecOn with
  | nil => simp [scrollLoop]
  | append_singleton l a ih =>
    rw [scrollLoop_concat]
    by_cases h1 : a.totalArea = totalArea
    · rw [if_pos h1]
      constructor
      · intro h; cases h
      · intro h
        exact absurd h1 (h a (by simp)).1
    · rw [if_neg h1]
      by_cases h2 : a.totalArea.intersects totalArea = true
      · rw [if_pos h2]
        constructor
        · intro h; cases h
        · intro h
          have := (h a (by simp)).2
          rw [h2] at this
          cases this
      · rw [if_neg h2, Option.map_eq_none', ih]
        constructor
        · intro h op hop
          rcases List.mem_append.mp hop with hm | hm
          · exact h op hm
          · have : op = a := by simpa using hm
            subst this
            exact ⟨h1, by simpa using h2⟩
        · intro h op hop
          exact h op (List.mem_append.mpr (Or.inl hop))

/-! ## Separated ledgers -/

theorem LedgerSeparated.concat_iff (l : List ScrollOp) (a : ScrollOp) :
    LedgerSeparated (l ++ [a])
      ↔ LedgerSeparated l
        ∧ ∀ op ∈ l, op.totalArea ≠ a.totalArea ∧ op.totalArea.intersects a.totalArea = false := by
  unfold LedgerSeparated
  rw [List.map_append, List.pairwise_append]
  simp

theorem LedgerSeparated.nil : LedgerSeparated [] := by
  simp [LedgerSeparated]

/-- Writing back the entry that is already there changes nothing. -/
theorem set_getElem_same (ops : List ScrollOp) (i : Nat) (hi : i < ops.length) :
    ops.set i ops[i] = ops := by
  apply List.ext_getElem
  · simp
  · intro n h1 h2
    simp only [List.getElem_set]
    split
    · next h => subst h; rfl
    · rfl

/-- Replacing an entry by one with the same `totalArea` keeps the list of areas. -/
theorem map_totalArea_set (ops : List ScrollOp) (i : Nat) (hi : i < ops.length)
    (dx dy : Int) :
    (ops.set i { totalArea := ops[i].totalArea, dx := dx, dy := dy }).map ScrollOp.totalArea
      = ops.map ScrollOp.totalArea := by
  apply List.ext_getElem
  · simp
  · intro n h1 h2
    simp only [List.getElem_map, List.getElem_set]
    split
    · next h => subst h; rfl
    · rfl

/-- In a separated ledger the loop of `scroll` reaches the entry whose area equals
`totalArea` and adds the deltas to it. -/
theorem scrollLoop_merge (totalArea : QRegion) (dx dy : Int) (ops : List ScrollOp)
    (hsep : LedgerSeparated ops) (i : Nat) (hi : i < ops.length)
    (heq : ops[i].totalArea = totalArea) :
    scrollLoop totalArea dx dy ops ops.length
      = some (true, ops.set i
          { totalArea := ops[i].totalArea, dx := ops[i].dx + dx, dy := ops[i].dy + dy }) := by
  induction ops using List.reverseRecOn with
  | nil => simp at hi
  | append_singleton l a ih =>
    rw [scrollLoop_concat]
    obtain ⟨hl, hla⟩ := (LedgerSeparated.concat_iff l a).mp hsep
    by_cases hil : i < l.length
    · have hget : (l ++ [a])[i] = l[i] := List.getElem_append_left hil
      have hmem : l[i] ∈ l := List.getElem_mem hil
      obtain ⟨hne, hdis⟩ := hla _ hmem
      rw [hget] at heq
      rw [heq] at hne hdis
      have h1 : ¬ a.totalArea = totalArea := fun h => hne h.symm
      have h2 : ¬ a.totalArea.intersects totalArea = true := by
        rw [QRegion.intersects_comm, hdis]; simp
      rw [if_neg h1, if_neg h2, ih hl hil heq]
      simp [hget, List.set_append_left _ _ hil]
    · have hlen : (l ++ [a]).length = l.length + 1 := by simp
      have hil2 : i = l.length := by omega
      subst hil2
      have hget : (l ++ [a])[l.length] = a := by simp
      rw [hget] at heq
      rw [if_pos heq]
      simp [hget]

/-- In a separated ledger a request that intersects an entry without being equal to it
leaves the loop of `scroll` through `return false`, the list untouched. -/
theorem scrollLoop_conflict (totalArea : QRegion) (dx dy : Int) (ops : List ScrollOp)
    (hsep : LedgerSeparated ops)
    (hex : ∃ op ∈ ops, op.totalArea.intersects totalArea = true ∧ op.totalArea ≠ totalArea) :
    scrollLoop totalArea dx dy ops ops.length = some (false, ops) := by
  induction ops using List.reverseRecOn with
  | nil => simp at hex
  | append_singleton l a ih =>
    rw [scrollLoop_concat]
    obtain ⟨hl, hla⟩ := (LedgerSeparated.concat_iff l a).mp hsep
    obtain ⟨op, hop, hint, hne⟩ := hex
    by_cases h1 : a.totalArea = totalArea
    · exfalso
      rcases List.mem_append.mp hop with hm | hm
      · have := (hla op hm).2
        rw [h1, hint] at this
        cases this
      · have : op = a := by simpa using hm
        subst this
        exact hne h1
    · rw [if_neg h1]
      by_cases h2 : a.totalArea.intersects totalArea = true
      · rw [if_pos h2]
      · rw [if_neg h2]
        rcases List.mem_append.mp hop with hm | hm
        · rw [ih hl ⟨op, hm, hint, hne⟩]
          rfl
        · have : op = a := by simpa using hm
          subst this
          exact absurd hint h2

/-- The method `scroll` keeps a separated ledger separated. -/
theorem LedgerSeparated.scroll (s : QQnxRasterBackingStore) (area : QRegion) (dx dy : Int)
    (hsep : LedgerSeparated s.m_scrollOpList) :
    LedgerSeparated (s.scroll area dx dy).2.m_scrollOpList := by
  unfold QQnxRasterBackingStore.scroll
  simp only
  cases hloop : scrollLoop (scrollTotalArea area dx dy) dx dy s.m_scrollOpList
      s.m_scrollOpList.length with
  | none =>
    simp only
    rw [LedgerSeparated.concat_iff]
    exact ⟨hsep, (scrollLoop_eq_none_iff _ _ _ _).mp hloop⟩
  | some p =>
    obtain ⟨b, ops⟩ := p
    simp only
    by_cases hex : ∃ i, ∃ hi : i < s.m_scrollOpList.length,
        s.m_scrollOpList[i].totalArea = scrollTotalArea area dx dy
    · obtain ⟨i, hi, heq⟩ := hex
      rw [scrollLoop_merge _ dx dy _ hsep i hi heq] at hloop
      cases hloop
      unfold LedgerSeparated
      rw [map_totalArea_set]
      exact hsep
    · have hne : ∀ op ∈ s.m_scrollOpList, op.totalArea ≠ scrollTotalArea area dx dy := by
        intro op hop heq
        obtain ⟨i, hi, rfl⟩ := List.getElem_of_mem hop
        exact hex ⟨i, hi, heq⟩
      by_cases hint : ∃ op ∈ s.m_scrollOpList,
          op.totalArea.intersects (scrollTotalArea area dx dy) = true
      · obtain ⟨op, hop, hi⟩ := hint
        rw [scrollLoop_conflict _ dx dy _ hsep ⟨op, hop, hi, hne op hop⟩] at hloop
        cases hloop
        exact hsep
      · have hnone := (scrollLoop_eq_none_iff (scrollTotalArea area dx dy) dx dy
            s.m_scrollOpList).mpr (fun op hop => ⟨hne op hop, by
              cases h : op.totalArea.intersects (scrollTotalArea area dx dy)
              · rfl
              · exact absurd ⟨op, hop, h⟩ hint⟩)
        rw [hnone] at hloop
        cases hloop

/-- Every reachable state has a separated ledger. -/
theorem Reachable.ledgerSeparated {s : QQnxRasterBackingStore} (h : Reachable s) :
    LedgerSeparated s.m_scrollOpList := by
  induction h with
  | init w => exact LedgerSeparated.nil
  | scroll area dx dy _ ih => exact LedgerSeparated.scroll _ area dx dy ih
  | beginPaint region _ ih => exact ih
  | endPaint region _ ih => exact ih
  | resize size staticContents _ ih => exact ih
  | @flush s t window region offset _ hok ih =>
    unfold QQnxRasterBackingStore.flush at hok
    simp only at hok
    split at hok
    · cases hok
      exact LedgerSeparated.nil
    · split at hok
      · split at hok
        · cases hok
        · cases hok
          exact ih
      · cases hok
        exact ih

/-! ## Merging -/

/-- One `scroll` whose computed area equals the area of entry `i` of a separated
ledger: the call returns true and adds its deltas to that entry. -/
theorem scroll_merge_step (s : QQnxRasterBackingStore)
    (hsep : LedgerSeparated s.m_scrollOpList) (i : Nat) (E : ScrollOp)
    (hE : s.m_scrollOpList[i]? = some E) (area : QRegion) (dx dy : Int)
    (heq : scrollTotalArea area dx dy = E.totalArea) :
    s.scroll area dx dy
      = (true, { m_platformWindow := s.m_platformWindow
                 m_scrollOpList := s.m_scrollOpList.set i
                   { totalArea := E.totalArea, dx := E.dx + dx, dy := E.dy + dy }
                 m_hasUnflushedPaintOperations := true }) := by
  obtain ⟨hi, hget⟩ := List.getElem?_eq_some_iff.mp hE
  unfold QQnxRasterBackingStore.scroll
  simp only
  rw [scrollLoop_merge _ dx dy _ hsep i hi (by rw [hget, heq])]
  simp only [hget]

theorem scrollAll_merge (reqs : List (QRegion × Int × Int)) :
    ∀ (s : QQnxRasterBackingStore) (E : ScrollOp) (i : Nat),
      LedgerSeparated s.m_scrollOpList → s.m_scrollOpList[i]? = some E →
      (∀ r ∈ reqs, scrollTotalArea r.1 r.2.1 r.2.2 = E.totalArea) →
      (s.scrollAll reqs).1 = List.replicate reqs.length true
      ∧ (s.scrollAll reqs).2.m_scrollOpList
          = s.m_scrollOpList.set i
              { totalArea := E.totalArea
                dx := E.dx + (reqs.map (fun r => r.2.1)).sum
                dy := E.dy + (reqs.map (fun r => r.2.2)).sum } := by
  induction reqs with
  | nil =>
    intro s E i _ hE _
    obtain ⟨hi, hget⟩ := List.getElem?_eq_some_iff.mp hE
    subst hget
    simp only [QQnxRasterBackingStore.scrollAll, List.map_nil, List.sum_nil, Int.add_zero,
      List.length_nil, List.replicate_zero, true_and]
    exact (set_getElem_same _ i hi).symm
  | cons r rest ih =>
    intro s E i hsep hE hreq
    obtain ⟨area, dx, dy⟩ := r
    obtain ⟨hi, hget⟩ := List.getElem?_eq_some_iff.mp hE
    have hstep := scroll_merge_step s hsep i E hE area dx dy
      (hreq (area, dx, dy) (List.mem_cons_self _ _))
    have hsep2 := LedgerSeparated.scroll s area dx dy hsep
    rw [hstep] at hsep2
    have hE2 : (s.m_scrollOpList.set i
        { totalArea := E.totalArea, dx := E.dx + dx, dy := E.dy + dy })[i]?
          = some { totalArea := E.totalArea, dx := E.dx + dx, dy := E.dy + dy } := by
      simp [hi]
    obtain ⟨h1, h2⟩ := ih _ _ i hsep2 hE2
      (fun r hr => hreq r (List.mem_cons_of_mem _ hr))
    simp only [QQnxRasterBackingStore.scrollAll, hstep]
    refine ⟨?_, ?_⟩
    · rw [h1]; simp [List.replicate_succ]
    · rw [h2]
      simp [List.set_set, Int.add_assoc]

/-- C1: in a state reachable from the freshly constructed one whose ledger holds the
entry `E` at position `i`, a run of scroll requests whose computed totalArea all equal
`E.totalArea` returns true every time and leaves the ledger as it was except that
entry `i` has the same totalArea and the deltas of `E` plus the sums of the requested
deltas: same length, same totalAreas in the same order, every other entry unchanged. -/
theorem scroll_merge_accumulates (s : QQnxRasterBackingStore) (hs : Reachable s)
    (i : Nat) (E : ScrollOp) (hE : s.m_scrollOpList[i]? = some E)
    (reqs : List (QRegion × Int × Int))
    (hreq : ∀ r ∈ reqs, scrollTotalArea r.1 r.2.1 r.2.2 = E.totalArea) :
    (s.scrollAll reqs).1 = List.replicate reqs.length true
    ∧ (s.scrollAll reqs).2.m_scrollOpList
        = s.m_scrollOpList.set i
            { totalArea := E.totalArea
              dx := E.dx + (reqs.map (fun r => r.2.1)).sum
              dy := E.dy + (reqs.map (fun r => r.2.2)).sum }
    ∧ (s.scrollAll reqs).2.m_scrollOpList.length = s.m_scrollOpList.length
    ∧ (s.scrollAll reqs).2.m_scrollOpList.map ScrollOp.totalArea
        = s.m_scrollOpList.map ScrollOp.totalArea
    ∧ ∀ j, j ≠ i → (s.scrollAll reqs).2.m_scrollOpList[j]? = s.m_scrollOpList[j]? := by
  obtain ⟨h1, h2⟩ := scrollAll_merge reqs s E i hs.ledgerSeparated hE hreq
  obtain ⟨hi, hget⟩ := List.getElem?_eq_some_iff.mp hE
  refine ⟨h1, h2, ?_, ?_, ?_⟩
  · rw [h2]; simp
  · rw [h2, ← hget]
    exact map_totalArea_set _ i hi _ _
  · intro j hj
    rw [h2]
    exact List.getElem?_set_ne (Ne.symm hj)

/-- Witness for C1: after `scroll({(0,0)}, 1, 0)` on a fresh object, three more requests
with the same computed area. -/
theorem scroll_merge_accumulates_witness :
    Reachable ((QQnxRasterBackingStore.init 0).scroll {(0, 0)} 1 0).2
    ∧ ((QQnxRasterBackingStore.init 0).scroll {(0, 0)} 1 0).2.m_scrollOpList[0]?
        = some { totalArea := {(0, 0), (1, 0)}, dx := 1, dy := 0 }
    ∧ (((QQnxRasterBackingStore.init 0).scroll {(0, 0)} 1 0).2.scrollAll
          [({(0, 0)}, 1, 0), ({(1, 0)}, -1, 0), ({(0, 0)}, 1, 0)]).1 = [true, true, true]
    ∧ (((QQnxRasterBackingStore.init 0).scroll {(0, 0)} 1 0).2.scrollAll
          [({(0, 0)}, 1, 0), ({(1, 0)}, -1, 0), ({(0, 0)}, 1, 0)]).2.m_scrollOpList
        = [{ totalArea := {(0, 0), (1, 0)}, dx := 2, dy := 0 }] :=
  have hr : Reachable ((QQnxRasterBackingStore.init 0).scroll {(0, 0)} 1 0).2 :=
    Reachable.scroll _ _ _ (Reachable.init 0)
  have hl : ((QQnxRasterBackingStore.init 0).scroll {(0, 0)} 1 0).2.m_scrollOpList
      = [{ totalArea := {(0, 0), (1, 0)}, dx := 1, dy := 0 }] := by decide
  have hE : ((QQnxRasterBackingStore.init 0).scroll {(0, 0)} 1 0).2.m_scrollOpList[0]?
      = some { totalArea := {(0, 0), (1, 0)}, dx := 1, dy := 0 } := by rw [hl]; rfl
  have h := scroll_merge_accumulates _ hr 0
    { totalArea := {(0, 0), (1, 0)}, dx := 1, dy := 0 } hE
    [({(0, 0)}, 1, 0), ({(1, 0)}, -1, 0), ({(0, 0)}, 1, 0)] (by decide)
  ⟨hr, hE, h.1, by rw [h.2.1, hl]; decide⟩

/-! ## Conflict and append -/

/-- C2: in a state reachable from the freshly constructed one, a scroll request whose
computed totalArea intersects the totalArea of some pending entry without being equal
to it returns false and leaves the ledger (entries, order, totalArea, dx, dy) as it
was before the call. -/
theorem scroll_conflict_rejected (s : QQnxRasterBackingStore) (hs : Reachable s)
    (area : QRegion) (dx dy : Int)
    (hconf : ∃ op ∈ s.m_scrollOpList,
      (scrollTotalArea area dx dy).intersects op.totalArea = true
        ∧ scrollTotalArea area dx dy ≠ op.totalArea) :
    (s.scroll area dx dy).1 = false
    ∧ (s.scroll area dx dy).2.m_scrollOpList = s.m_scrollOpList := by
  obtain ⟨op, hop, hint, hne⟩ := hconf
  have hloop := scrollLoop_conflict (scrollTotalArea area dx dy) dx dy s.m_scrollOpList
    hs.ledgerSeparated ⟨op, hop, by rw [QRegion.intersects_comm]; exact hint, Ne.symm hne⟩
  unfold QQnxRasterBackingStore.scroll
  simp only [hloop, and_self]

/-- Witness for C2: `scroll({(0,0)}, 1, 0)` is pending with area `{(0,0), (1,0)}`; the
request `scroll({(0,0)}, 2, 0)` has area `{(0,0), (2,0)}`. -/
theorem scroll_conflict_rejected_witness :
    Reachable ((QQnxRasterBackingStore.init 0).scroll {(0, 0)} 1 0).2
    ∧ (∃ op ∈ ((QQnxRasterBackingStore.init 0).scroll {(0, 0)} 1 0).2.m_scrollOpList,
        (scrollTotalArea {(0, 0)} 2 0).intersects op.totalArea = true
          ∧ scrollTotalArea {(0, 0)} 2 0 ≠ op.totalArea)
    ∧ (((QQnxRasterBackingStore.init 0).scroll {(0, 0)} 1 0).2.scroll {(0, 0)} 2 0).1 = false
    ∧ (((QQnxRasterBackingStore.init 0).scroll {(0, 0)} 1 0).2.scroll {(0, 0)} 2 0).2.m_scrollOpList
        = ((QQnxRasterBackingStore.init 0).scroll {(0, 0)} 1 0).2.m_scrollOpList :=
  have hr : Reachable ((QQnxRasterBackingStore.init 0).scroll {(0, 0)} 1 0).2 :=
    Reachable.scroll _ _ _ (Reachable.init 0)
  have hc : ∃ op ∈ ((QQnxRasterBackingStore.init 0).scroll {(0, 0)} 1 0).2.m_scrollOpList,
      (scrollTotalArea {(0, 0)} 2 0).intersects op.totalArea = true
        ∧ scrollTotalArea {(0, 0)} 2 0 ≠ op.totalArea := by decide
  ⟨hr, hc, scroll_conflict_rejected _ hr {(0, 0)} 2 0 hc⟩

/-- C3: when the computed totalArea of a scroll request neither equals nor intersects
the totalArea of any pending entry, scroll returns true and the new ledger is the old
one followed by the one entry (totalArea, dx, dy); on the empty ledger
`scroll([0,0,100,100], 10, 0)` returns true and yields the single entry whose totalArea
is the union of `[0,0,100,100]` and `[10,0,110,100]`, with dx = 10 and dy = 0. -/
theorem scroll_append_on_no_match (s : QQnxRasterBackingStore) (area : QRegion)
    (dx dy : Int)
    (hno : ∀ op ∈ s.m_scrollOpList,
      scrollTotalArea area dx dy ≠ op.totalArea
        ∧ (scrollTotalArea area dx dy).intersects op.totalArea = false) :
    ((s.scroll area dx dy).1 = true
      ∧ (s.scroll area dx dy).2.m_scrollOpList
          = s.m_scrollOpList
            ++ [{ totalArea := (area.translated dx dy).united area, dx := dx, dy := dy }])
    ∧ ∀ w : QQnxWindow,
        ((QQnxRasterBackingStore.init w).scroll (QRegion.rect 0 0 100 100) 10 0).1 = true
        ∧ ((QQnxRasterBackingStore.init w).scroll (QRegion.rect 0 0 100 100) 10 0).2.m_scrollOpList
            = [{ totalArea := (QRegion.rect 0 0 100 100).united (QRegion.rect 10 0 110 100)
                 dx := 10, dy := 0 }] := by
  constructor
  · have hloop := (scrollLoop_eq_none_iff (scrollTotalArea area dx dy) dx dy
      s.m_scrollOpList).mpr (fun op hop =>
        ⟨Ne.symm (hno op hop).1, by rw [QRegion.intersects_comm]; exact (hno op hop).2⟩)
    unfold QQnxRasterBackingStore.scroll
    simp only [hloop]
    exact ⟨trivial, rfl⟩
  · intro w
    have ht : scrollTotalArea (QRegion.rect 0 0 100 100) 10 0
        = (QRegion.rect 0 0 100 100).united (QRegion.rect 10 0 110 100) := by
      unfold scrollTotalArea QRegion.united
      rw [QRegion.translated_rect, Finset.union_comm]
      norm_num
    simp [QQnxRasterBackingStore.scroll, QQnxRasterBackingStore.init, scrollLoop, ht]

/-- Witness for C3: with `{(0,0), (1,0)}` pending, the request `scroll({(5,5)}, 0, 1)`
has the disjoint area `{(5,5), (5,6)}`. -/
theorem scroll_append_on_no_match_witness :
    (∀ op ∈ ((QQnxRasterBackingStore.init 0).scroll {(0, 0)} 1 0).2.m_scrollOpList,
      scrollTotalArea {(5, 5)} 0 1 ≠ op.totalArea
        ∧ (scrollTotalArea {(5, 5)} 0 1).intersects op.totalArea = false)
    ∧ (((QQnxRasterBackingStore.init 0).scroll {(0, 0)} 1 0).2.scroll {(5, 5)} 0 1).1 = true
    ∧ (((QQnxRasterBackingStore.init 0).scroll {(0, 0)} 1 0).2.scroll {(5, 5)} 0 1).2.m_scrollOpList
        = ((QQnxRasterBackingStore.init 0).scroll {(0, 0)} 1 0).2.m_scrollOpList
          ++ [{ totalArea := (QRegion.translated {(5, 5)} 0 1).united {(5, 5)}, dx := 0, dy := 1 }] :=
  ⟨by decide,
    (scroll_append_on_no_match ((QQnxRasterBackingStore.init 0).scroll {(0, 0)} 1 0).2
      {(5, 5)} 0 1 (by decide)).1⟩

/-! ## The loop of `flush` -/

theorem flushLoop_append (w : QQnxWindow) (l r : List ScrollOp) :
    ∀ n, n ≤ l.length → flushLoop w (l ++ r) n = flushLoop w l n := by
  intro n
  induction n with
  | zero => intro _; rfl
  | succ i ih =>
    intro h
    have hi : i < l.length := h
    have hget : (l ++ r)[i]? = l[i]? := List.getElem?_append_left hi
    simp only [flushLoop, hget, ih (Nat.le_of_lt hi)]

/-- The loop of `flush` visits the entries last-added first. -/
theorem flushLoop_eq_reverse_map (w : QQnxWindow) (ops : List ScrollOp) :
    flushLoop w ops ops.length
      = ops.reverse.map (fun e => WindowCall.scroll w e.srcArea e.dx e.dy) := by
  induction ops using List.reverseRecOn with
  | nil => rfl
  | append_singleton l a ih =>
    have hlen : (l ++ [a]).length = l.length + 1 := by simp
    rw [hlen]
    simp only [flushLoop, List.getElem?_concat_length]
    rw [flushLoop_append w l [a] l.length (Nat.le_refl _), ih]
    simp

/-! ## `flush` -/

/-- C5: a flush with no target, or with a target that resolves to the owning platform
window, issues on the owning window exactly the scrolls of the ledger entries,
last-added first, each with source `totalArea` intersected with `totalArea` translated
by `(-dx, -dy)`, and then `post(region)`; it issues nothing else, the ledger is empty
afterwards, and the call has the same calls and final state as the one with no
target. -/
theorem flush_owner_drains_reverse_then_posts (s : QQnxRasterBackingStore)
    (window : Option QWindow) (region : QRegion) (offset : QPoint)
    (htarget : window = none ∨ ∃ w, window = some w ∧ w.handle = some s.m_platformWindow) :
    s.flush window region offset
      = (s.m_scrollOpList.reverse.map (fun e =>
            WindowCall.scroll s.m_platformWindow
              (e.totalArea.intersected (e.totalArea.translated (-e.dx) (-e.dy))) e.dx e.dy)
          ++ [WindowCall.post s.m_platformWindow region],
          .ok { m_platformWindow := s.m_platformWindow
                m_scrollOpList := []
                m_hasUnflushedPaintOperations := false })
    ∧ s.flush window region offset = s.flush none region offset := by
  have hnone : s.flush none region offset
      = (s.m_scrollOpList.reverse.map (fun e =>
            WindowCall.scroll s.m_platformWindow
              (e.totalArea.intersected (e.totalArea.translated (-e.dx) (-e.dy))) e.dx e.dy)
          ++ [WindowCall.post s.m_platformWindow region],
          .ok { m_platformWindow := s.m_platformWindow
                m_scrollOpList := []
                m_hasUnflushedPaintOperations := false }) := by
    simp [QQnxRasterBackingStore.flush, flushLoop_eq_reverse_map, ScrollOp.srcArea]
  rcases htarget with h | ⟨w, hw, hh⟩
  · subst h
    exact ⟨hnone, rfl⟩
  · subst hw
    have : s.flush (some w) region offset = s.flush none region offset := by
      simp [QQnxRasterBackingStore.flush, hh]
    exact ⟨this.trans hnone, this⟩

/-- Witness for C5: two pending entries, target window resolving to the owner `0`. -/
theorem flush_owner_drains_reverse_then_posts_witness :
    ((some { handle := some 0 } : Option QWindow) = none
        ∨ ∃ w, (some { handle := some 0 } : Option QWindow) = some w ∧ w.handle = some 0)
    ∧ (QQnxRasterBackingStore.mk 0
          [{ totalArea := {(0, 0), (1, 0)}, dx := 1, dy := 0 },
           { totalArea := {(5, 5), (5, 6)}, dx := 0, dy := 1 }] true).flush
        (some { handle := some 0 }) {(0, 0)} (0, 0)
      = ([WindowCall.scroll 0 {(5, 5)} 0 1, WindowCall.scroll 0 {(0, 0)} 1 0,
          WindowCall.post 0 {(0, 0)}],
          .ok { m_platformWindow := 0, m_scrollOpList := [],
                m_hasUnflushedPaintOperations := false }) :=
  have ht : (some { handle := some 0 } : Option QWindow) = none
      ∨ ∃ w, (some { handle := some 0 } : Option QWindow) = some w ∧ w.handle = some 0 :=
    Or.inr ⟨_, rfl, rfl⟩
  have h := flush_owner_drains_reverse_then_posts
    (QQnxRasterBackingStore.mk 0
      [{ totalArea := {(0, 0), (1, 0)}, dx := 1, dy := 0 },
       { totalArea := {(5, 5), (5, 6)}, dx := 0, dy := 1 }] true)
    (some { handle := some 0 }) {(0, 0)} (0, 0) ht
  ⟨ht, by rw [h.1]; decide⟩

/-- C4, evaluated on the code: after `scroll({(0,0)}, 1, 0)` on a fresh object, `flush`
with a window object whose `handle()` is null takes the branch of the owning window; it
issues the pending scroll and a post on the owning window and empties the ledger, and
the branch with the warning is not reached. -/
theorem flush_null_handle_drains_owner :
    ((QQnxRasterBackingStore.init 0).scroll {(0, 0)} 1 0).2.m_scrollOpList
      = [{ totalArea := {(0, 0), (1, 0)}, dx := 1, dy := 0 }]
    ∧ ((QQnxRasterBackingStore.init 0).scroll {(0, 0)} 1 0).2.flush
        (some { handle := none }) {(7, 7)} (0, 0)
      = ([WindowCall.scroll 0 {(0, 0)} 1 0, WindowCall.post 0 {(7, 7)}],
          .ok { m_platformWindow := 0, m_scrollOpList := [],
                m_hasUnflushedPaintOperations := false }) := by
  decide

/-- C6: every `flush` that returns leaves `m_hasUnflushedPaintOperations` false, and
`flush` returns in every case except the one that aborts: flag set and a target that
resolves to a platform window other than the owning one. -/
theorem flush_clears_dirty_flag (s : QQnxRasterBackingStore) (window : Option QWindow)
    (region : QRegion) (offset : QPoint) :
    (∀ t, (s.flush window region offset).2 = .ok t → t.m_hasUnflushedPaintOperations = false)
    ∧ ((∃ t, (s.flush window region offset).2 = .ok t)
        ↔ ¬ (s.m_hasUnflushedPaintOperations = true
              ∧ ∃ w tw, window = some w ∧ w.handle = some tw ∧ tw ≠ s.m_platformWindow)) := by
  unfold QQnxRasterBackingStore.flush
  rcases window with _ | ⟨⟨_ | tw⟩⟩
  · simp
  · simp
  · by_cases hown : tw = s.m_platformWindow
    · simp [hown]
    · cases hflag : s.m_hasUnflushedPaintOperations <;> simp [hown, hflag]

/-- Witness for C6: a flush to another window with the flag clear returns with the flag
clear. -/
theorem flush_clears_dirty_flag_witness :
    ((QQnxRasterBackingStore.init 0).flush (some { handle := some 1 }) {(0, 0)} (0, 0)).2
        = .ok (QQnxRasterBackingStore.init 0)
    ∧ (QQnxRasterBackingStore.init 0).m_hasUnflushedPaintOperations = false :=
  have h : ((QQnxRasterBackingStore.init 0).flush (some { handle := some 1 }) {(0, 0)}
      (0, 0)).2 = .ok (QQnxRasterBackingStore.init 0) := by decide
  ⟨h, (flush_clears_dirty_flag (QQnxRasterBackingStore.init 0) (some { handle := some 1 })
    {(0, 0)} (0, 0)).1 _ h⟩

/-- C7: with `m_hasUnflushedPaintOperations` set, a flush whose target resolves to a
platform window other than the owning one ends in the failed assertion and issues no
call on any window before it. -/
theorem flush_cross_window_dirty_is_fatal (s : QQnxRasterBackingStore)
    (hflag : s.m_hasUnflushedPaintOperations = true) (w : QWindow) (tw : QQnxWindow)
    (hw : w.handle = some tw) (hne : tw ≠ s.m_platformWindow) (region : QRegion)
    (offset : QPoint) :
    s.flush (some w) region offset = ([], .error Fatal.assertNoUnflushedPaintOperations) := by
  simp [QQnxRasterBackingStore.flush, hw, hne, hflag]

/-- Witness for C7: the state after a `beginPaint` on window `0`, flushed to window `1`. -/
theorem flush_cross_window_dirty_is_fatal_witness :
    ((QQnxRasterBackingStore.init 0).beginPaint {(0, 0)}).2.m_hasUnflushedPaintOperations = true
    ∧ (QWindow.mk (some 1)).handle = some 1
    ∧ (1 : QQnxWindow) ≠ ((QQnxRasterBackingStore.init 0).beginPaint {(0, 0)}).2.m_platformWindow
    ∧ ((QQnxRasterBackingStore.init 0).beginPaint {(0, 0)}).2.flush
        (some (QWindow.mk (some 1))) {(0, 0)} (0, 0)
      = ([], .error Fatal.assertNoUnflushedPaintOperations) :=
  ⟨rfl, rfl, by decide,
    flush_cross_window_dirty_is_fatal _ rfl (QWindow.mk (some 1)) 1 rfl (by decide)
      {(0, 0)} (0, 0)⟩

/-- C8: with `m_hasUnflushedPaintOperations` clear, a flush whose target resolves to a
platform window other than the owning one issues exactly `adjustBufferSize()`,
`blitFrom(owner, offset, region)`, `post(region)`, in this order and all on the target;
no call has the owning window as receiver, and the state, ledger included, is as
before. -/
theorem flush_cross_window_copies_then_posts (s : QQnxRasterBackingStore)
    (hflag : s.m_hasUnflushedPaintOperations = false) (w : QWindow) (tw : QQnxWindow)
    (hw : w.handle = some tw) (hne : tw ≠ s.m_platformWindow) (region : QRegion)
    (offset : QPoint) :
    s.flush (some w) region offset
      = ([WindowCall.adjustBufferSize tw,
          WindowCall.blitFrom tw s.m_platformWindow offset region,
          WindowCall.post tw region], .ok s)
    ∧ (∀ c ∈ (s.flush (some w) region offset).1, c.receiver ≠ s.m_platformWindow)
    ∧ ∀ t, (s.flush (some w) region offset).2 = .ok t → t.m_scrollOpList = s.m_scrollOpList := by
  have h : s.flush (some w) region offset
      = ([WindowCall.adjustBufferSize tw,
          WindowCall.blitFrom tw s.m_platformWindow offset region,
          WindowCall.post tw region], .ok s) := by
    cases s
    simp only at hflag
    subst hflag
    simp [QQnxRasterBackingStore.flush, hw, hne]
  refine ⟨h, ?_, ?_⟩
  · rw [h]
    intro c hc
    simp only [List.mem_cons, List.mem_singleton, List.not_mem_nil, or_false] at hc
    rcases hc with rfl | rfl | rfl <;> exact hne
  · rw [h]
    intro t ht
    cases ht
    rfl

/-- Witness for C8: one entry pending and the flag clear, owner `0`, target `1`. -/
theorem flush_cross_window_copies_then_posts_witness :
    (QQnxRasterBackingStore.mk 0 [{ totalArea := {(0, 0), (1, 0)}, dx := 1, dy := 0 }]
        false).m_hasUnflushedPaintOperations = false
    ∧ (QWindow.mk (some 1)).handle = some 1
    ∧ (1 : QQnxWindow) ≠ 0
    ∧ (QQnxRasterBackingStore.mk 0 [{ totalArea := {(0, 0), (1, 0)}, dx := 1, dy := 0 }]
        false).flush (some (QWindow.mk (some 1))) {(3, 3)} (2, 2)
      = ([WindowCall.adjustBufferSize 1, WindowCall.blitFrom 1 0 (2, 2) {(3, 3)},
          WindowCall.post 1 {(3, 3)}],
          .ok (QQnxRasterBackingStore.mk 0
            [{ totalArea := {(0, 0), (1, 0)}, dx := 1, dy := 0 }] false)) :=
  ⟨rfl, rfl, by decide,
    (flush_cross_window_copies_then_posts
      (QQnxRasterBackingStore.mk 0 [{ totalArea := {(0, 0), (1, 0)}, dx := 1, dy := 0 }] false)
      rfl (QWindow.mk (some 1)) 1 rfl (by decide) {(3, 3)} (2, 2)).1⟩

/-! ## `resize`, `endPaint`, `beginPaint` -/

theorem resizeAll_eq (sizes : List (QSize × QRegion)) :
    ∀ s : QQnxRasterBackingStore, s.resizeAll sizes = ([], s) := by
  induction sizes with
  | nil => intro s; rfl
  | cons a rest ih =>
    intro s
    obtain ⟨size, staticContents⟩ := a
    simp [QQnxRasterBackingStore.resizeAll, QQnxRasterBackingStore.resize, ih]

/-- C10: `resize` and `endPaint` issue no call on any window and return the state as it
was (ledger and flag included); so a run of any number of `resize` calls issues nothing
and leaves the state, and the `beginPaint` after it issues exactly one
`adjustBufferSize()`, on the owning window. -/
theorem resize_endPaint_deferred (s : QQnxRasterBackingStore) (size : QSize)
    (staticContents region : QRegion) (sizes : List (QSize × QRegion)) :
    s.resize size staticContents = ([], s)
    ∧ s.endPaint region = ([], s)
    ∧ s.resizeAll sizes = ([], s)
    ∧ (s.resizeAll sizes).1 ++ ((s.resizeAll sizes).2.beginPaint region).1
        = [WindowCall.adjustBufferSize s.m_platformWindow] := by
  refine ⟨rfl, rfl, resizeAll_eq sizes s, ?_⟩
  rw [resizeAll_eq sizes s]
  rfl

/-! ## Order of the deferred scrolls -/

theorem ScrollOp.mem_srcArea (e : ScrollOp) (p : Int × Int) :
    p ∈ e.srcArea ↔ p ∈ e.totalArea ∧ (p.1 + e.dx, p.2 + e.dy) ∈ e.totalArea := by
  unfold ScrollOp.srcArea QRegion.intersected
  rw [Finset.mem_inter, QRegion.mem_translated]
  simp

/-- Two entries of a separated ledger are the same entry or share no pixel. -/
theorem LedgerSeparated.eq_or_disjoint (ops : List ScrollOp) (hsep : LedgerSeparated ops)
    (a b : ScrollOp) (ha : a ∈ ops) (hb : b ∈ ops) :
    a = b ∨ ∀ p, p ∈ a.totalArea → p ∉ b.totalArea := by
  by_cases hab : a = b
  · exact Or.inl hab
  · right
    unfold LedgerSeparated at hsep
    rw [List.pairwise_map] at hsep
    have hsymm : Symmetric (fun x y : ScrollOp =>
        x.totalArea ≠ y.totalArea ∧ QRegion.intersects x.totalArea y.totalArea = false) := by
      intro x y h
      exact ⟨Ne.symm h.1, by rw [QRegion.intersects_comm]; exact h.2⟩
    exact (QRegion.intersects_eq_false_iff _ _).mp (hsep.forall hsymm ha hb hab).2

/-- The shifts of two entries with disjoint areas commute on every buffer. -/
theorem windowScroll_comm {α : Type} (a b : ScrollOp)
    (hdis : ∀ p, p ∈ a.totalArea → p ∉ b.totalArea) (buf : Buffer α) :
    windowScroll (windowScroll buf a.srcArea a.dx a.dy) b.srcArea b.dx b.dy
      = windowScroll (windowScroll buf b.srcArea b.dx b.dy) a.srcArea a.dx a.dy := by
  funext q
  simp only [windowScroll, ScrollOp.mem_srcArea, sub_add_cancel, Prod.mk.eta]
  by_cases hb : (q.1 - b.dx, q.2 - b.dy) ∈ b.totalArea ∧ q ∈ b.totalArea
  · have ha : ¬ ((q.1 - a.dx, q.2 - a.dy) ∈ a.totalArea ∧ q ∈ a.totalArea) :=
      fun h => hdis q h.2 hb.2
    have ha2 : ¬ ((q.1 - b.dx - a.dx, q.2 - b.dy - a.dy) ∈ a.totalArea
        ∧ (q.1 - b.dx, q.2 - b.dy) ∈ a.totalArea) := fun h => hdis _ h.2 hb.1
    simp only [if_pos hb, if_neg ha2, if_neg ha]
  · by_cases ha : (q.1 - a.dx, q.2 - a.dy) ∈ a.totalArea ∧ q ∈ a.totalArea
    · have hb2 : ¬ ((q.1 - a.dx - b.dx, q.2 - a.dy - b.dy) ∈ b.totalArea
          ∧ (q.1 - a.dx, q.2 - a.dy) ∈ b.totalArea) := fun h => hdis _ ha.1 h.2
      simp only [if_neg hb, if_pos ha, if_neg hb2]
    · simp only [if_neg hb, if_neg ha]

/-- On a separated ledger the shifts give the same buffer in every order. -/
theorem applyShifts_perm {α : Type} (ops order : List ScrollOp)
    (hsep : LedgerSeparated ops) (hperm : order.Perm ops) (buf : Buffer α) :
    applyShifts order buf = applyShifts ops buf := by
  unfold applyShifts
  refine (List.Perm.foldl_eq' hperm.symm ?_ buf).symm
  intro x hx y hy z
  rcases LedgerSeparated.eq_or_disjoint ops hsep x y hx hy with h | h
  · subst h; rfl
  · exact windowScroll_comm x y h z

/-- The buffer of `w` after the scrolls of a list of entries and the post. -/
theorem bufferAfter_scrolls_post {α : Type} (w : QQnxWindow) (region : QRegion)
    (es : List ScrollOp) :
    ∀ buf : Buffer α,
      bufferAfter w (es.map (fun e => WindowCall.scroll w e.srcArea e.dx e.dy)
          ++ [WindowCall.post w region]) buf
        = some (applyShifts es buf) := by
  induction es with
  | nil => intro buf; rfl
  | cons e rest ih =>
    intro buf
    rw [List.map_cons, List.cons_append]
    simp only [bufferAfter, WindowCall.applyTo, if_true, Option.some_bind]
    exact ih _

/-- The owner branch of `flush`, for the target forms that select it. -/
theorem flush_owner (s : QQnxRasterBackingStore) (window : Option QWindow)
    (region : QRegion) (offset : QPoint)
    (htarget : window = none ∨ ∃ w, window = some w ∧ w.handle = some s.m_platformWindow) :
    s.flush window region offset
      = (s.m_scrollOpList.reverse.map (fun e =>
            WindowCall.scroll s.m_platformWindow e.srcArea e.dx e.dy)
          ++ [WindowCall.post s.m_platformWindow region],
          .ok { m_platformWindow := s.m_platformWindow
                m_scrollOpList := []
                m_hasUnflushedPaintOperations := false }) := by
  rcases htarget with h | ⟨w, hw, hh⟩
  · subst h
    simp [QQnxRasterBackingStore.flush, flushLoop_eq_reverse_map]
  · subst hw
    simp [QQnxRasterBackingStore.flush, hh, flushLoop_eq_reverse_map]

theorem scrollAll_platformWindow (reqs : List (QRegion × Int × Int)) :
    ∀ s : QQnxRasterBackingStore,
      (s.scrollAll reqs).2.m_platformWindow = s.m_platformWindow := by
  induction reqs with
  | nil => intro s; rfl
  | cons r rest ih =>
    intro s
    obtain ⟨area, dx, dy⟩ := r
    simp only [QQnxRasterBackingStore.scrollAll, ih]
    unfold QQnxRasterBackingStore.scroll
    simp only
    split <;> rfl

theorem scrollAll_ledgerSeparated (reqs : List (QRegion × Int × Int)) :
    ∀ s : QQnxRasterBackingStore, LedgerSeparated s.m_scrollOpList →
      LedgerSeparated (s.scrollAll reqs).2.m_scrollOpList := by
  induction reqs with
  | nil => intro s h; exact h
  | cons r rest ih =>
    intro s h
    obtain ⟨area, dx, dy⟩ := r
    exact ih _ (LedgerSeparated.scroll s area dx dy h)

/-- C9: with the buffer a map from integer points to pixels and the scroll of a window
writing to every point `p + (dx, dy)`, `p` in the source, the old pixel at `p`: for the
ledger built on a fresh object by scroll requests with pairwise non-intersecting
totalAreas, the buffer of the owning window after the owner flush is the buffer obtained
by applying the shifts of the ledger entries in any order (any permutation of the
ledger). -/
theorem flush_order_independent {α : Type} (w : QQnxWindow)
    (reqs : List (QRegion × Int × Int))
    (_hreq : reqs.Pairwise (fun a b =>
      (scrollTotalArea a.1 a.2.1 a.2.2).intersects (scrollTotalArea b.1 b.2.1 b.2.2) = false))
    (order : List ScrollOp)
    (hperm : order.Perm ((QQnxRasterBackingStore.init w).scrollAll reqs).2.m_scrollOpList)
    (region : QRegion) (offset : QPoint) (buf : Buffer α) :
    bufferAfter w
        (((QQnxRasterBackingStore.init w).scrollAll reqs).2.flush none region offset).1 buf
      = some (applyShifts order buf) := by
  have hsep := scrollAll_ledgerSeparated reqs (QQnxRasterBackingStore.init w)
    LedgerSeparated.nil
  have hw : ((QQnxRasterBackingStore.init w).scrollAll reqs).2.m_platformWindow = w :=
    scrollAll_platformWindow reqs _
  rw [flush_owner _ none region offset (Or.inl rfl)]
  simp only [hw]
  rw [bufferAfter_scrolls_post]
  have h1 := applyShifts_perm _ order hsep hperm buf
  have h2 := applyShifts_perm _
    ((QQnxRasterBackingStore.init w).scrollAll reqs).2.m_scrollOpList.reverse hsep
    (List.reverse_perm _) buf
  rw [h1, h2]

/-- Witness for C9: two requests with disjoint areas on window `0`, the entries taken in
insertion order, and the buffer whose pixel at `p` is `p`. -/
theorem flush_order_independent_witness :
    ([(({(0, 0)}, 1, 0) : QRegion × Int × Int), ({(5, 5)}, 0, 1)]).Pairwise (fun a b =>
      (scrollTotalArea a.1 a.2.1 a.2.2).intersects (scrollTotalArea b.1 b.2.1 b.2.2) = false)
    ∧ List.Perm
        [({ totalArea := {(0, 0), (1, 0)}, dx := 1, dy := 0 } : ScrollOp),
         { totalArea := {(5, 5), (5, 6)}, dx := 0, dy := 1 }]
        ((QQnxRasterBackingStore.init 0).scrollAll
          [({(0, 0)}, 1, 0), ({(5, 5)}, 0, 1)]).2.m_scrollOpList
    ∧ bufferAfter 0
        (((QQnxRasterBackingStore.init 0).scrollAll
          [({(0, 0)}, 1, 0), ({(5, 5)}, 0, 1)]).2.flush none {(0, 0)} (0, 0)).1
        (fun p : Int × Int => p)
      = some (applyShifts
          [({ totalArea := {(0, 0), (1, 0)}, dx := 1, dy := 0 } : ScrollOp),
           { totalArea := {(5, 5), (5, 6)}, dx := 0, dy := 1 }]
          (fun p : Int × Int => p)) :=
  have h1 : ([(({(0, 0)}, 1, 0) : QRegion × Int × Int), ({(5, 5)}, 0, 1)]).Pairwise
      (fun a b => (scrollTotalArea a.1 a.2.1 a.2.2).intersects
        (scrollTotalArea b.1 b.2.1 b.2.2) = false) := by decide
  have h2 : List.Perm
      [({ totalArea := {(0, 0), (1, 0)}, dx := 1, dy := 0 } : ScrollOp),
       { totalArea := {(5, 5), (5, 6)}, dx := 0, dy := 1 }]
      ((QQnxRasterBackingStore.init 0).scrollAll
        [({(0, 0)}, 1, 0), ({(5, 5)}, 0, 1)]).2.m_scrollOpList := by decide
  ⟨h1, h2, flush_order_independent 0 _ h1 _ h2 {(0, 0)} (0, 0) (fun p : Int × Int => p)⟩

/-! ## Deferral and the dirty flag -/

theorem scroll_platformWindow (s : QQnxRasterBackingStore) (area : QRegion) (dx dy : Int) :
    (s.scroll area dx dy).2.m_platformWindow = s.m_platformWindow := by
  unfold QQnxRasterBackingStore.scroll
  simp only
  split <;> rfl

theorem scroll_flag (s : QQnxRasterBackingStore) (area : QRegion) (dx dy : Int) :
    (s.scroll area dx dy).2.m_hasUnflushedPaintOperations = true := by
  unfold QQnxRasterBackingStore.scroll
  simp only
  split <;> rfl

/-- C11: whatever `scroll` returns, it issues no call on the owning window or on any
other window, so the buffer of every window is as before; of the state it leaves
`m_platformWindow` as it was, so only the ledger and the dirty flag can change. -/
theorem scroll_is_deferred (s : QQnxRasterBackingStore) (area : QRegion) (dx dy : Int) :
    s.scrollCalls area dx dy = []
    ∧ (∀ (α : Type) (w : QQnxWindow) (buf : Buffer α),
        bufferAfter w (s.scrollCalls area dx dy) buf = some buf)
    ∧ (s.scroll area dx dy).2
        = { m_platformWindow := s.m_platformWindow
            m_scrollOpList := (s.scroll area dx dy).2.m_scrollOpList
            m_hasUnflushedPaintOperations :=
              (s.scroll area dx dy).2.m_hasUnflushedPaintOperations } := by
  refine ⟨rfl, fun _ _ _ => rfl, ?_⟩
  have h := scroll_platformWindow s area dx dy
  cases hs : (s.scroll area dx dy).2
  rw [hs] at h
  simp only at h
  simp [h]

/-- C12: after `scroll(area, dx, dy)` the flag `m_hasUnflushedPaintOperations` is true
whatever the call returns, a conflict that returns false included; after
`beginPaint(region)` it is true and the ledger is as before. -/
theorem scroll_beginPaint_set_dirty_flag (s : QQnxRasterBackingStore) (area region : QRegion)
    (dx dy : Int) :
    (s.scroll area dx dy).2.m_hasUnflushedPaintOperations = true
    ∧ ((s.scroll area dx dy).1 = false →
        (s.scroll area dx dy).2.m_hasUnflushedPaintOperations = true)
    ∧ (s.beginPaint region).2.m_hasUnflushedPaintOperations = true
    ∧ (s.beginPaint region).2.m_scrollOpList = s.m_scrollOpList :=
  ⟨scroll_flag s area dx dy, fun _ => scroll_flag s area dx dy, rfl, rfl⟩

/-- Witness for C12: the conflicting request of a state with one pending entry returns
false and the flag, cleared before, is set. -/
theorem scroll_beginPaint_set_dirty_flag_witness :
    ((QQnxRasterBackingStore.mk 0 [{ totalArea := {(0, 0), (1, 0)}, dx := 1, dy := 0 }]
        false).scroll {(0, 0)} 2 0).1 = false
    ∧ ((QQnxRasterBackingStore.mk 0 [{ totalArea := {(0, 0), (1, 0)}, dx := 1, dy := 0 }]
        false).scroll {(0, 0)} 2 0).2.m_hasUnflushedPaintOperations = true :=
  have h : ((QQnxRasterBackingStore.mk 0
      [{ totalArea := {(0, 0), (1, 0)}, dx := 1, dy := 0 }] false).scroll {(0, 0)} 2 0).1
        = false := by decide
  ⟨h, (scroll_beginPaint_set_dirty_flag
    (QQnxRasterBackingStore.mk 0 [{ totalArea := {(0, 0), (1, 0)}, dx := 1, dy := 0 }] false)
    {(0, 0)} {(0, 0)} 2 0).2.1 h⟩

/-! ## The ledger invariant -/

/-- In a separated ledger the entries at two different positions have areas that are
neither equal nor intersecting. -/
theorem LedgerSeparated.at_positions (ops : List ScrollOp) (hsep : LedgerSeparated ops)
    (i j : Nat) (a b : ScrollOp) (hij : i ≠ j) (ha : ops[i]? = some a)
    (hb : ops[j]? = some b) :
    a.totalArea ≠ b.totalArea ∧ a.totalArea.intersects b.totalArea = false := by
  unfold LedgerSeparated at hsep
  rw [List.pairwise_map, List.pairwise_iff_getElem] at hsep
  obtain ⟨hi, rfl⟩ := List.getElem?_eq_some_iff.mp ha
  obtain ⟨hj, rfl⟩ := List.getElem?_eq_some_iff.mp hb
  rcases Nat.lt_or_gt_of_ne hij with h | h
  · exact hsep i j hi hj h
  · have := hsep j i hj hi h
    exact ⟨Ne.symm this.1, by rw [QRegion.intersects_comm]; exact this.2⟩

/-- C13: in every state reachable from the freshly constructed backing store by scroll,
beginPaint, endPaint, resize and flush calls, the totalAreas of the ledger entries at
two different positions are not equal and do not intersect. -/
theorem ledger_entries_separated (s : QQnxRasterBackingStore) (hs : Reachable s)
    (i j : Nat) (a b : ScrollOp) (hij : i ≠ j) (ha : s.m_scrollOpList[i]? = some a)
    (hb : s.m_scrollOpList[j]? = some b) :
    a.totalArea ≠ b.totalArea ∧ a.totalArea.intersects b.totalArea = false :=
  LedgerSeparated.at_positions s.m_scrollOpList hs.ledgerSeparated i j a b hij ha hb

/-- Witness for C13: two accepted requests with disjoint areas on a fresh object. -/
theorem ledger_entries_separated_witness :
    Reachable (((QQnxRasterBackingStore.init 0).scroll {(0, 0)} 1 0).2.scroll {(5, 5)} 0 1).2
    ∧ (0 : Nat) ≠ 1
    ∧ (((QQnxRasterBackingStore.init 0).scroll {(0, 0)} 1 0).2.scroll {(5, 5)} 0
          1).2.m_scrollOpList[0]?
        = some { totalArea := {(0, 0), (1, 0)}, dx := 1, dy := 0 }
    ∧ (((QQnxRasterBackingStore.init 0).scroll {(0, 0)} 1 0).2.scroll {(5, 5)} 0
          1).2.m_scrollOpList[1]?
        = some { totalArea := {(5, 5), (5, 6)}, dx := 0, dy := 1 }
    ∧ (({(0, 0), (1, 0)} : QRegion) ≠ {(5, 5), (5, 6)}
        ∧ QRegion.intersects {(0, 0), (1, 0)} {(5, 5), (5, 6)} = false) :=
  have hr : Reachable
      (((QQnxRasterBackingStore.init 0).scroll {(0, 0)} 1 0).2.scroll {(5, 5)} 0 1).2 :=
    Reachable.scroll _ _ _ (Reachable.scroll _ _ _ (Reachable.init 0))
  have hl : (((QQnxRasterBackingStore.init 0).scroll {(0, 0)} 1 0).2.scroll {(5, 5)} 0
      1).2.m_scrollOpList
      = [{ totalArea := {(0, 0), (1, 0)}, dx := 1, dy := 0 },
         { totalArea := {(5, 5), (5, 6)}, dx := 0, dy := 1 }] := by decide
  have h0 : (((QQnxRasterBackingStore.init 0).scroll {(0, 0)} 1 0).2.scroll {(5, 5)} 0
      1).2.m_scrollOpList[0]?
      = some { totalArea := {(0, 0), (1, 0)}, dx := 1, dy := 0 } := by rw [hl]; rfl
  have h1 : (((QQnxRasterBackingStore.init 0).scroll {(0, 0)} 1 0).2.scroll {(5, 5)} 0
      1).2.m_scrollOpList[1]?
      = some { totalArea := {(5, 5), (5, 6)}, dx := 0, dy := 1 } := by rw [hl]; rfl
  ⟨hr, by decide, h0, h1, ledger_entries_separated _ hr 0 1 _ _ (by decide) h0 h1⟩

/-! ## The source region computed by `flush` -/

theorem mem_scrollTotalArea (area : QRegion) (dx dy : Int) (p : Int × Int) :
    p ∈ scrollTotalArea area dx dy ↔ (p.1 - dx, p.2 - dy) ∈ area ∨ p ∈ area := by
  unfold scrollTotalArea QRegion.united
  rw [Finset.mem_union, QRegion.mem_translated]

/-- The pixels of the source computed by `flush` for the entry appended by
`scroll(area, dx, dy)`. -/
theorem mem_srcArea_of_request (area : QRegion) (dx dy : Int) (p : Int × Int) :
    p ∈ (ScrollOp.mk (scrollTotalArea area dx dy) dx dy).srcArea
      ↔ p ∈ area ∨ ((p.1 - dx, p.2 - dy) ∈ area ∧ (p.1 + dx, p.2 + dy) ∈ area) := by
  rw [ScrollOp.mem_srcArea]
  simp only [mem_scrollTotalArea, add_sub_cancel_right, Prod.mk.eta]
  tauto

/-- C14, evaluated on the code at an area of two pixels: `scroll({(0,0), (2,0)}, 1, 0)` on
a fresh object returns true and stores the area `{(0,0), (1,0), (2,0), (3,0)}`; the
owner flush then issues the scroll with source `{(0,0), (1,0), (2,0)}`, which is not the
requested area, and in the pixel model it writes to `(2,0)` the old pixel of `(1,0)`,
where the requested scroll leaves `(2,0)` as it was. -/
theorem flush_source_wider_than_requested_area :
    ((QQnxRasterBackingStore.init 0).scroll {(0, 0), (2, 0)} 1 0).1 = true
    ∧ ((QQnxRasterBackingStore.init 0).scroll {(0, 0), (2, 0)} 1 0).2.m_scrollOpList
        = [{ totalArea := {(0, 0), (1, 0), (2, 0), (3, 0)}, dx := 1, dy := 0 }]
    ∧ (((QQnxRasterBackingStore.init 0).scroll {(0, 0), (2, 0)} 1 0).2.flush
          none {(7, 7)} (0, 0)).1
        = [WindowCall.scroll 0 {(0, 0), (1, 0), (2, 0)} 1 0, WindowCall.post 0 {(7, 7)}]
    ∧ (ScrollOp.mk (scrollTotalArea {(0, 0), (2, 0)} 1 0) 1 0).srcArea
        ≠ {(0, 0), (2, 0)}
    ∧ (bufferAfter 0
          (((QQnxRasterBackingStore.init 0).scroll {(0, 0), (2, 0)} 1 0).2.flush
            none {(7, 7)} (0, 0)).1
          (fun p : Int × Int => p)).map (fun buf => buf (2, 0)) = some (1, 0)
    ∧ windowScroll (fun p : Int × Int => p) {(0, 0), (2, 0)} 1 0 (2, 0) = (2, 0) := by
  decide

/-- The source computed by `flush` for the entry appended by `scroll(area, dx, dy)`, in
terms of the area: the area united with the pixels common to the area translated by
`(dx, dy)` and the area translated by `(-dx, -dy)`; it contains the area, and it is the
area exactly when those common pixels are in the area. -/
theorem srcArea_of_request (area : QRegion) (dx dy : Int) :
    (scrollTotalArea area dx dy).intersected
        ((scrollTotalArea area dx dy).translated (-dx) (-dy))
      = area.united ((area.translated dx dy).intersected (area.translated (-dx) (-dy)))
    ∧ area ⊆ (scrollTotalArea area dx dy).intersected
        ((scrollTotalArea area dx dy).translated (-dx) (-dy))
    ∧ ((scrollTotalArea area dx dy).intersected
          ((scrollTotalArea area dx dy).translated (-dx) (-dy)) = area
        ↔ (area.translated dx dy).intersected (area.translated (-dx) (-dy)) ⊆ area) := by
  have hmem : ∀ p : Int × Int,
      p ∈ (scrollTotalArea area dx dy).intersected
          ((scrollTotalArea area dx dy).translated (-dx) (-dy))
        ↔ p ∈ area ∨ ((p.1 - dx, p.2 - dy) ∈ area ∧ (p.1 + dx, p.2 + dy) ∈ area) :=
    fun p => mem_srcArea_of_request area dx dy p
  have hmem2 : ∀ p : Int × Int,
      p ∈ (area.translated dx dy).intersected (area.translated (-dx) (-dy))
        ↔ (p.1 - dx, p.2 - dy) ∈ area ∧ (p.1 + dx, p.2 + dy) ∈ area := by
    intro p
    unfold QRegion.intersected
    rw [Finset.mem_inter, QRegion.mem_translated, QRegion.mem_translated]
    simp
  refine ⟨?_, ?_, ?_⟩
  · ext p
    rw [hmem]
    unfold QRegion.united
    rw [Finset.mem_union, hmem2]
  · intro p hp
    exact (hmem p).mpr (Or.inl hp)
  · constructor
    · intro h p hp
      rw [← h]
      exact (hmem p).mpr (Or.inr ((hmem2 p).mp hp))
    · intro h
      ext p
      rw [hmem]
      constructor
      · rintro (hp | hp)
        · exact hp
        · exact h ((hmem2 p).mpr hp)
      · exact Or.inl

/-- C15: for an area that is one rectangle of integer pixels and every `dx`, `dy`, the
region `totalArea` intersected with `totalArea` translated by `(-dx, -dy)` is the area;
so the scroll of one rectangle on a fresh object is replayed by the owner flush as
`scroll(area, dx, dy)` followed by the post. -/
theorem srcArea_of_rect (x1 y1 x2 y2 dx dy : Int) :
    (scrollTotalArea (QRegion.rect x1 y1 x2 y2) dx dy).intersected
        ((scrollTotalArea (QRegion.rect x1 y1 x2 y2) dx dy).translated (-dx) (-dy))
      = QRegion.rect x1 y1 x2 y2
    ∧ ∀ (w : QQnxWindow) (region : QRegion) (offset : QPoint),
        (((QQnxRasterBackingStore.init w).scroll (QRegion.rect x1 y1 x2 y2) dx dy).2.flush
            none region offset).1
          = [WindowCall.scroll w (QRegion.rect x1 y1 x2 y2) dx dy,
             WindowCall.post w region] := by
  have hsrc : (ScrollOp.mk (scrollTotalArea (QRegion.rect x1 y1 x2 y2) dx dy) dx dy).srcArea
      = QRegion.rect x1 y1 x2 y2 := by
    ext p
    rw [mem_srcArea_of_request]
    simp only [QRegion.rect, Finset.mem_product, Finset.mem_Ico]
    constructor
    · intro h; omega
    · intro h; exact Or.inl h
  refine ⟨hsrc, ?_⟩
  intro w region offset
  rw [flush_owner _ none region offset (Or.inl rfl)]
  simp [QQnxRasterBackingStore.scroll, QQnxRasterBackingStore.init, scrollLoop, hsrc]

/-- C16: for every ledger entry `(totalArea, dx, dy)`, whatever its deltas (those
accumulated by merges included), the source computed by flush and the destination, the
source translated by `(dx, dy)`, are both inside `totalArea`. -/
theorem srcArea_and_destination_within_totalArea (e : ScrollOp) :
    e.totalArea.intersected (e.totalArea.translated (-e.dx) (-e.dy)) ⊆ e.totalArea
    ∧ (e.totalArea.intersected (e.totalArea.translated (-e.dx) (-e.dy))).translated e.dx e.dy
        ⊆ e.totalArea := by
  constructor
  · intro p hp
    exact ((ScrollOp.mem_srcArea e p).mp hp).1
  · intro p hp
    rw [QRegion.mem_translated] at hp
    have := ((ScrollOp.mem_srcArea e _).mp hp).2
    simpa using this

/-! ## Pending scrolls and the dirty flag -/

/-- In every reachable state a non-empty ledger comes with the flag set. -/
theorem Reachable.dirty_of_pending {s : QQnxRasterBackingStore} (h : Reachable s) :
    s.m_scrollOpList ≠ [] → s.m_hasUnflushedPaintOperations = true := by
  induction h with
  | init w => intro hne; exact absurd rfl hne
  | scroll area dx dy _ _ => intro _; exact scroll_flag _ area dx dy
  | beginPaint region _ _ => intro _; rfl
  | endPaint region _ ih => exact ih
  | resize size staticContents _ ih => exact ih
  | @flush s t window region offset _ hok ih =>
    intro hne
    unfold QQnxRasterBackingStore.flush at hok
    simp only at hok
    split at hok
    · cases hok
      exact absurd rfl hne
    · next hnot =>
      split at hok
      · split at hok
        · cases hok
        · next hflag =>
          cases hok
          exact absurd (ih hne) hflag
      · next hnone =>
        exact absurd (Or.inl hnone) hnot

/-- C17: with the assertion of the cross-window branch aborting, in every state
reachable from the freshly constructed backing store a non-empty ledger implies that
`m_hasUnflushedPaintOperations` is true; so a flush to a platform window other than the
owning one that completes started with an empty ledger and ends with an empty ledger and
the flag clear. -/
theorem pending_scrolls_imply_dirty (s : QQnxRasterBackingStore) (hs : Reachable s) :
    (s.m_scrollOpList ≠ [] → s.m_hasUnflushedPaintOperations = true)
    ∧ ∀ (w : QWindow) (tw : QQnxWindow) (region : QRegion) (offset : QPoint)
        (t : QQnxRasterBackingStore),
        w.handle = some tw → tw ≠ s.m_platformWindow →
        (s.flush (some w) region offset).2 = .ok t →
        s.m_scrollOpList = [] ∧ t.m_scrollOpList = []
          ∧ t.m_hasUnflushedPaintOperations = false := by
  refine ⟨hs.dirty_of_pending, ?_⟩
  intro w tw region offset t hw hne hok
  cases hflag : s.m_hasUnflushedPaintOperations
  · have hempty : s.m_scrollOpList = [] := by
      by_contra hcon
      have := hs.dirty_of_pending hcon
      rw [hflag] at this
      cases this
    simp [QQnxRasterBackingStore.flush, hw, hne, hflag] at hok
    subst hok
    exact ⟨hempty, hempty, rfl⟩
  · simp [QQnxRasterBackingStore.flush, hw, hne, hflag] at hok

/-- Witness for C17: after one accepted scroll the ledger is non-empty and the flag is
set. -/
theorem pending_scrolls_imply_dirty_witness :
    Reachable ((QQnxRasterBackingStore.init 0).scroll {(0, 0)} 1 0).2
    ∧ ((QQnxRasterBackingStore.init 0).scroll {(0, 0)} 1 0).2.m_scrollOpList ≠ []
    ∧ ((QQnxRasterBackingStore.init 0).scroll {(0, 0)} 1
        0).2.m_hasUnflushedPaintOperations = true :=
  have hr : Reachable ((QQnxRasterBackingStore.init 0).scroll {(0, 0)} 1 0).2 :=
    Reachable.scroll _ _ _ (Reachable.init 0)
  have hne : ((QQnxRasterBackingStore.init 0).scroll {(0, 0)} 1 0).2.m_scrollOpList ≠ [] := by
    decide
  ⟨hr, hne, (pending_scrolls_imply_dirty _ hr).1 hne⟩

/-! ## The same area scrolled by another delta -/

/-- Along a direction `(a, b)` in which the delta `(d1, d2)` advances, a delta whose
total area covers that of `(d1, d2)` advances at least as far: the pixel of the area
that is furthest in the direction, moved by `(d1, d2)`, has to be covered. -/
theorem delta_le_of_totalArea_subset (area : QRegion) (hne : area.Nonempty)
    (d1 d2 e1 e2 a b : Int)
    (hsub : ∀ p, p ∈ scrollTotalArea area d1 d2 → p ∈ scrollTotalArea area e1 e2)
    (hpos : 0 < a * d1 + b * d2) :
    a * d1 + b * d2 ≤ a * e1 + b * e2 := by
  obtain ⟨m, hm, hmax⟩ := Finset.exists_max_image area (fun p => a * p.1 + b * p.2) hne
  have hq : (m.1 + d1, m.2 + d2) ∈ scrollTotalArea area d1 d2 := by
    rw [mem_scrollTotalArea]
    left
    simpa using hm
  rcases (mem_scrollTotalArea area e1 e2 _).mp (hsub _ hq) with h | h
  · have := hmax _ h
    simp only at this
    linarith
  · have := hmax _ h
    simp only at this
    linarith

/-- A non-empty area has the same total area for two deltas only when the deltas are
the same. -/
theorem delta_eq_of_totalArea_eq (area : QRegion) (hne : area.Nonempty)
    (d1 d2 e1 e2 : Int)
    (heq : scrollTotalArea area d1 d2 = scrollTotalArea area e1 e2) :
    d1 = e1 ∧ d2 = e2 := by
  have hde : ∀ p, p ∈ scrollTotalArea area d1 d2 → p ∈ scrollTotalArea area e1 e2 :=
    fun p hp => heq ▸ hp
  have hed : ∀ p, p ∈ scrollTotalArea area e1 e2 → p ∈ scrollTotalArea area d1 d2 :=
    fun p hp => heq ▸ hp
  have x1 := delta_le_of_totalArea_subset area hne d1 d2 e1 e2 1 0 hde
  have x2 := delta_le_of_totalArea_subset area hne e1 e2 d1 d2 1 0 hed
  have x3 := delta_le_of_totalArea_subset area hne d1 d2 e1 e2 (-1) 0 hde
  have x4 := delta_le_of_totalArea_subset area hne e1 e2 d1 d2 (-1) 0 hed
  have y1 := delta_le_of_totalArea_subset area hne d1 d2 e1 e2 0 1 hde
  have y2 := delta_le_of_totalArea_subset area hne e1 e2 d1 d2 0 1 hed
  have y3 := delta_le_of_totalArea_subset area hne d1 d2 e1 e2 0 (-1) hde
  have y4 := delta_le_of_totalArea_subset area hne e1 e2 d1 d2 0 (-1) hed
  constructor <;> omega

/-- The result of a `scroll` on a ledger of one entry. -/
theorem scroll_on_single (w : QQnxWindow) (flag : Bool) (E : ScrollOp) (area : QRegion)
    (dx dy : Int) :
    (QQnxRasterBackingStore.mk w [E] flag).scroll area dx dy
      = if E.totalArea = scrollTotalArea area dx dy then
          (true, QQnxRasterBackingStore.mk w
            [{ totalArea := E.totalArea, dx := E.dx + dx, dy := E.dy + dy }] true)
        else if E.totalArea.intersects (scrollTotalArea area dx dy) then
          (false, QQnxRasterBackingStore.mk w [E] true)
        else
          (true, QQnxRasterBackingStore.mk w
            [E, { totalArea := scrollTotalArea area dx dy, dx := dx, dy := dy }] true) := by
  unfold QQnxRasterBackingStore.scroll
  simp only [List.length_singleton, scrollLoop, List.getElem?_cons_zero]
  by_cases h1 : E.totalArea = scrollTotalArea area dx dy
  · simp [h1]
  · by_cases h2 : E.totalArea.intersects (scrollTotalArea area dx dy) = true
    · simp [h1, h2]
    · simp [h1, h2]

/-- C18: on a fresh object and for a non-empty area, `scroll(area, dx1, dy1)` returns
true and leaves the one entry `(totalArea, dx1, dy1)`; a following `scroll(area, dx2,
dy2)` with a different delta returns false and leaves that entry as it is. A following
request is merged into the entry (true returned, one entry with the deltas added) exactly
when its computed totalArea is that of the entry, as for the same area with the same
delta. -/
theorem rescroll_other_delta_rejected (w : QQnxWindow) (area : QRegion)
    (hne : area.Nonempty) (dx1 dy1 dx2 dy2 : Int) (hd : (dx1, dy1) ≠ (dx2, dy2)) :
    (QQnxRasterBackingStore.init w).scroll area dx1 dy1
      = (true, QQnxRasterBackingStore.mk w
          [{ totalArea := scrollTotalArea area dx1 dy1, dx := dx1, dy := dy1 }] true)
    ∧ ((QQnxRasterBackingStore.init w).scroll area dx1 dy1).2.scroll area dx2 dy2
      = (false, QQnxRasterBackingStore.mk w
          [{ totalArea := scrollTotalArea area dx1 dy1, dx := dx1, dy := dy1 }] true)
    ∧ (∀ (area2 : QRegion) (dx dy : Int),
        ((QQnxRasterBackingStore.init w).scroll area dx1 dy1).2.scroll area2 dx dy
            = (true, QQnxRasterBackingStore.mk w
                [{ totalArea := scrollTotalArea area dx1 dy1
                   dx := dx1 + dx, dy := dy1 + dy }] true)
          ↔ scrollTotalArea area2 dx dy = scrollTotalArea area dx1 dy1)
    ∧ ((QQnxRasterBackingStore.init w).scroll area dx1 dy1).2.scroll area dx1 dy1
      = (true, QQnxRasterBackingStore.mk w
          [{ totalArea := scrollTotalArea area dx1 dy1
             dx := dx1 + dx1, dy := dy1 + dy1 }] true) := by
  have hfirst : (QQnxRasterBackingStore.init w).scroll area dx1 dy1
      = (true, QQnxRasterBackingStore.mk w
          [{ totalArea := scrollTotalArea area dx1 dy1, dx := dx1, dy := dy1 }] true) := by
    simp [QQnxRasterBackingStore.scroll, QQnxRasterBackingStore.init, scrollLoop]
  have hT : scrollTotalArea area dx1 dy1 ≠ scrollTotalArea area dx2 dy2 := by
    intro h
    obtain ⟨h1, h2⟩ := delta_eq_of_totalArea_eq area hne dx1 dy1 dx2 dy2 h
    exact hd (by rw [h1, h2])
  have hint : (scrollTotalArea area dx1 dy1).intersects (scrollTotalArea area dx2 dy2)
      = true := by
    obtain ⟨p, hp⟩ := hne
    rw [QRegion.intersects_iff]
    exact ⟨p, (mem_scrollTotalArea _ _ _ p).mpr (Or.inr hp),
      (mem_scrollTotalArea _ _ _ p).mpr (Or.inr hp)⟩
  refine ⟨hfirst, ?_, ?_, ?_⟩
  · rw [hfirst, scroll_on_single]
    simp only [if_neg hT, hint, if_true]
  · intro area2 dx dy
    rw [hfirst, scroll_on_single]
    simp only
    constructor
    · intro h
      by_contra hcon
      rw [if_neg (Ne.symm hcon)] at h
      split at h
      · simp at h
      · simp at h
    · intro h
      rw [if_pos h.symm]
  · rw [hfirst, scroll_on_single]
    simp only [if_true]

/-- Witness for C18: the pixel `{(0,0)}` scrolled by `(1, 0)` and then by `(2, 0)`. -/
theorem rescroll_other_delta_rejected_witness :
    ({(0, 0)} : QRegion).Nonempty
    ∧ ((1, 0) : Int × Int) ≠ (2, 0)
    ∧ (((QQnxRasterBackingStore.init 0).scroll {(0, 0)} 1 0).2.scroll {(0, 0)} 2 0)
      = (false, QQnxRasterBackingStore.mk 0
          [{ totalArea := scrollTotalArea {(0, 0)} 1 0, dx := 1, dy := 0 }] true) :=
  ⟨by decide, by decide,
    (rescroll_other_delta_rejected 0 {(0, 0)} (by decide) 1 0 2 0 (by decide)).2.1⟩

end QQnx
